import Mathlib

/-!
Verification development for the SupraHedge dApp repository.

It embeds three parts of the code base:

* the pause-aware Solidity contract `SupraHedgeVault`
  (owner/guardian/paused storage, `deposit`, `withdraw`, `receive`,
  `setPaused`, `setGuardian`, `setOwner`);
* the earlier minimal MVP vault contract (owner + balances only);
* the Next.js front-end logic: the `onDeposit` and `onWithdraw`
  action flows and the `readPublicEnv` environment lookup.

Conventions of the embedding:

* addresses and `uint256` values are modelled as `Nat`.  Solidity 0.8
  uses checked arithmetic, so values never wrap; amounts here are
  unbounded naturals.  The one subtraction not protected by its own
  `require` (`totalAssets -= amount` in `withdraw`) is `Nat`
  truncated subtraction; on every reachable contract state
  `totalAssets` dominates each individual balance (proved below), so
  no truncation occurs there.
* a reverting call is `Except.error msg` carrying the Solidity revert
  string, and it returns no state: the revert rolls every storage
  write back, so the post-state is the pre-state.
* a successful call is `Except.ok (s', events)` with the new storage
  state and the emitted event log.  The ETH transfer performed by
  `withdraw` is an external call whose success is an input of the
  model (`transferOk`).
-/

/-- Storage of the pause-aware `SupraHedgeVault` contract:
`owner`, `guardian`, `paused`, the `balances` mapping and
`totalAssets`. -/
structure VaultState where
  owner : Nat
  guardian : Nat
  paused : Bool
  balances : Nat → Nat
  totalAssets : Nat

/-- The events the contract can emit. -/
inductive Event where
  | Deposit : Nat → Nat → Event
  | Withdraw : Nat → Nat → Event
  | Paused : Bool → Event
  | GuardianUpdated : Nat → Event
  | OwnerUpdated : Nat → Event
deriving DecidableEq

/-- The constructor: `owner = msg.sender`, `guardian = _guardian`;
`paused` and every mapping slot start at the Solidity defaults. -/
def initState (deployer g : Nat) : VaultState :=
  { owner := deployer
    guardian := g
    paused := false
    balances := fun _ => 0
    totalAssets := 0 }

/-- `deposit()`: guarded by `notPaused` and `require(msg.value > 0)`;
adds `msg.value` to the caller's balance and to `totalAssets` and
emits `Deposit`. -/
def deposit (s : VaultState) (sender value : Nat) :
    Except String (VaultState × List Event) :=
  if s.paused then Except.error "VAULT_PAUSED"
  else if value = 0 then Except.error "ZERO_DEPOSIT"
  else Except.ok
    ({ s with
        balances := Function.update s.balances sender (s.balances sender + value)
        totalAssets := s.totalAssets + value },
      [Event.Deposit sender value])

/-- `withdraw(amount)`: guarded by `notPaused`,
`require(amount > 0)` and `require(balances[msg.sender] >= amount)`;
subtracts `amount` from the caller's balance and from `totalAssets`,
then performs the ETH transfer (`transferOk` is its outcome) and
reverts everything if it failed, else emits `Withdraw`. -/
def withdraw (s : VaultState) (sender amount : Nat) (transferOk : Bool) :
    Except String (VaultState × List Event) :=
  if s.paused then Except.error "VAULT_PAUSED"
  else if amount = 0 then Except.error "ZERO_WITHDRAW"
  else if s.balances sender < amount then Except.error "INSUFFICIENT_BALANCE"
  else if transferOk = false then Except.error "ETH_TRANSFER_FAILED"
  else Except.ok
    ({ s with
        balances := Function.update s.balances sender (s.balances sender - amount)
        totalAssets := s.totalAssets - amount },
      [Event.Withdraw sender amount])

/-- `receive()`: a plain ETH transfer just delegates to `deposit()`
with the same `msg.sender` and `msg.value`. -/
def receiveEth (s : VaultState) (sender value : Nat) :
    Except String (VaultState × List Event) :=
  deposit s sender value

/-- `setPaused(bool)`: guarded by `onlyGuardianOrOwner`; sets the
flag and emits `Paused`. -/
def setPaused (s : VaultState) (sender : Nat) (b : Bool) :
    Except String (VaultState × List Event) :=
  if sender = s.owner ∨ sender = s.guardian then
    Except.ok ({ s with paused := b }, [Event.Paused b])
  else Except.error "NOT_AUTHORIZED"

/-- `setGuardian(address)`: guarded by `onlyOwner` and the zero-address
check; sets the guardian and emits `GuardianUpdated`. -/
def setGuardian (s : VaultState) (sender newGuardian : Nat) :
    Except String (VaultState × List Event) :=
  if sender = s.owner then
    if newGuardian = 0 then Except.error "ZERO_ADDRESS"
    else Except.ok ({ s with guardian := newGuardian }, [Event.GuardianUpdated newGuardian])
  else Except.error "NOT_OWNER"

/-- `setOwner(address)`: guarded by `onlyOwner` and the zero-address
check; sets the owner and emits `OwnerUpdated`. -/
def setOwner (s : VaultState) (sender newOwner : Nat) :
    Except String (VaultState × List Event) :=
  if sender = s.owner then
    if newOwner = 0 then Except.error "ZERO_ADDRESS"
    else Except.ok ({ s with owner := newOwner }, [Event.OwnerUpdated newOwner])
  else Except.error "NOT_OWNER"

/-- One external call into the contract, with its sender and
arguments. -/
inductive Call where
  | depositC : Nat → Nat → Call
  | withdrawC : Nat → Nat → Bool → Call
  | receiveC : Nat → Nat → Call
  | setPausedC : Nat → Bool → Call
  | setGuardianC : Nat → Nat → Call
  | setOwnerC : Nat → Nat → Call

/-- Dispatch one call to the contract function it names. -/
def exec (s : VaultState) (c : Call) : Except String (VaultState × List Event) :=
  match c with
  | Call.depositC sender value => deposit s sender value
  | Call.withdrawC sender amount tOk => withdraw s sender amount tOk
  | Call.receiveC sender value => receiveEth s sender value
  | Call.setPausedC sender b => setPaused s sender b
  | Call.setGuardianC sender g => setGuardian s sender g
  | Call.setOwnerC sender o => setOwner s sender o

/-- States reachable from the constructor by successful calls. -/
inductive Reachable : VaultState → Prop where
  | init (deployer g : Nat) : Reachable (initState deployer g)
  | step {s : VaultState} {c : Call} {s' : VaultState} {evs : List Event} :
      Reachable s → exec s c = Except.ok (s', evs) → Reachable s'

/-- Whether a call result is a success (did not revert). -/
def callOk (r : Except String (VaultState × List Event)) : Bool :=
  match r with
  | Except.ok _ => true
  | Except.error _ => false

/-- Storage of the earlier minimal MVP vault contract: just an owner
and the `balances` mapping (no guardian, no pause flag, no
`totalAssets`). -/
structure MvpState where
  owner : Nat
  balances : Nat → Nat

/-- The MVP contract's `deposit()`: `require(msg.value > 0)`, credit
the caller, emit `Deposit`. -/
def mvpDeposit (s : MvpState) (sender value : Nat) :
    Except String (MvpState × List Event) :=
  if value = 0 then Except.error "ZERO"
  else Except.ok
    ({ s with balances := Function.update s.balances sender (s.balances sender + value) },
      [Event.Deposit sender value])

/-- The MVP contract's `receive()`: delegates to `deposit()` with the
same sender and value. -/
def mvpReceive (s : MvpState) (sender value : Nat) :
    Except String (MvpState × List Event) :=
  mvpDeposit s sender value

/-- One chain interaction issued by the front end, as named in the
two ABIs it uses (ERC-20 `allowance`/`approve`, vault
`deposit`/`redeem`). -/
inductive FlowStep where
  | allowanceRead : Nat → Nat → FlowStep
  | approveTx : Nat → Nat → FlowStep
  | depositTx : Nat → Nat → FlowStep
  | redeemTx : Nat → Nat → Nat → FlowStep
deriving DecidableEq

/-- The `onDeposit` callback: it returns immediately when no wallet
is connected or the addresses are not configured; otherwise it reads
the caller's USDC allowance for the vault (`usdcAllowance` is the
value the chain returns), issues `approve(vault, assets)` exactly
when that allowance is below the parsed amount, and then issues
`deposit(assets, account)`. -/
def onDepositActions (hasWallet connected hasConfig : Bool)
    (account vaultAddr usdcAllowance assets : Nat) : List FlowStep :=
  if !hasWallet || !connected || !hasConfig then []
  else if usdcAllowance < assets then
    [FlowStep.allowanceRead account vaultAddr,
     FlowStep.approveTx vaultAddr assets,
     FlowStep.depositTx assets account]
  else
    [FlowStep.allowanceRead account vaultAddr,
     FlowStep.depositTx assets account]

/-- The `onWithdraw` callback: it returns immediately when no wallet
is connected, the addresses are not configured, or `userShares` is
`undefined` or `0n` (both falsy); otherwise it issues
`redeem(shares, account, account)` with
`shares = userShares * pct / 100` in truncated `BigInt` division. -/
def onWithdrawActions (hasWallet connected hasConfig : Bool)
    (account : Nat) (userShares : Option Nat) (pct : Nat) : List FlowStep :=
  if !hasWallet || !connected || !hasConfig then []
  else
    match userShares with
    | none => []
    | some sh =>
      if sh = 0 then []
      else [FlowStep.redeemTx (sh * pct / 100) account account]

/-- The JavaScript environments `readPublicEnv` consults.  `none` at
the outer level stands for `process`/`process.env` (resp. the global
object field) being `undefined`; a slot value is kept only when it is
a string, since the source discards every non-string value. -/
structure JsEnv where
  procEnv : Option (String → Option String)
  envObj : Option (String → Option String)
  nextPublicObj : Option (String → Option String)
  globalDirect : String → Option String

/-- The non-empty-string filter every branch of `readPublicEnv`
applies: keep `v` only when it is a string with `v.length` truthy. -/
def keepNonEmpty (v : Option String) : Option String :=
  match v with
  | some str => if str.length = 0 then none else some str
  | none => none

/-- `readPublicEnv(key)`: try `process.env[key]`, then
`globalThis.__ENV__[key]`, then `globalThis.__NEXT_PUBLIC__[key]`,
then `globalThis[key]`, returning the first non-empty string and
`undefined` otherwise. -/
def readPublicEnv (g : JsEnv) (key : String) : Option String :=
  match keepNonEmpty (g.procEnv.bind (fun e => e key)) with
  | some v => some v
  | none =>
    match keepNonEmpty (g.envObj.bind (fun e => e key)) with
    | some v => some v
    | none =>
      match keepNonEmpty (g.nextPublicObj.bind (fun e => e key)) with
      | some v => some v
      | none => keepNonEmpty (g.globalDirect key)

/-- The four candidate values for a key, in the order the code
checks them. -/
def envCandidates (g : JsEnv) (key : String) : List (Option String) :=
  [g.procEnv.bind (fun e => e key),
   g.envObj.bind (fun e => e key),
   g.nextPublicObj.bind (fun e => e key),
   g.globalDirect key]

/-- Modelled from the spec's words for comparison with
`readPublicEnv`: the first candidate that is a non-empty string, or
`undefined` when there is none. -/
def firstNonEmptyString (l : List (Option String)) : Option String :=
  match l with
  | [] => none
  | v :: rest =>
    match keepNonEmpty v with
    | some str => some str
    | none => firstNonEmptyString rest

/-- What a successful `deposit` call means: not paused, non-zero
value, and exactly the credited post-state and `Deposit` event. -/
lemma deposit_ok {s : VaultState} {sender value : Nat} {s' : VaultState}
    {evs : List Event} (h : deposit s sender value = Except.ok (s', evs)) :
    s.paused = false ∧ value ≠ 0 ∧
      s' = { s with
              balances := Function.update s.balances sender (s.balances sender + value)
              totalAssets := s.totalAssets + value } ∧
      evs = [Event.Deposit sender value] := by
  unfold deposit at h
  split at h
  · exact Except.noConfusion h
  next hpaused =>
    split at h
    · exact Except.noConfusion h
    next hvalue =>
      simp only [Except.ok.injEq, Prod.mk.injEq] at h
      exact ⟨Bool.not_eq_true s.paused ▸ hpaused, hvalue, h.1.symm, h.2.symm⟩

/-- What a successful `withdraw` call means: not paused, non-zero
amount, sufficient balance, transfer succeeded, and exactly the
debited post-state and `Withdraw` event. -/
lemma withdraw_ok {s : VaultState} {sender amount : Nat} {tOk : Bool}
    {s' : VaultState} {evs : List Event}
    (h : withdraw s sender amount tOk = Except.ok (s', evs)) :
    s.paused = false ∧ amount ≠ 0 ∧ amount ≤ s.balances sender ∧ tOk = true ∧
      s' = { s with
              balances := Function.update s.balances sender (s.balances sender - amount)
              totalAssets := s.totalAssets - amount } ∧
      evs = [Event.Withdraw sender amount] := by
  unfold withdraw at h
  split at h
  · exact Except.noConfusion h
  next hpaused =>
    split at h
    · exact Except.noConfusion h
    next hamount =>
      split at h
      · exact Except.noConfusion h
      next hbal =>
        split at h
        · exact Except.noConfusion h
        next htOk =>
          simp only [Except.ok.injEq, Prod.mk.injEq] at h
          refine ⟨Bool.not_eq_true s.paused ▸ hpaused, hamount,
            Nat.le_of_not_lt hbal, ?_, h.1.symm, h.2.symm⟩
          cases tOk
          · exact absurd rfl htOk
          · rfl

/-- What a successful `setPaused` call means: the caller is the owner
or the guardian, and only the flag changed. -/
lemma setPaused_ok {s : VaultState} {sender : Nat} {b : Bool}
    {s' : VaultState} {evs : List Event}
    (h : setPaused s sender b = Except.ok (s', evs)) :
    (sender = s.owner ∨ sender = s.guardian) ∧
      s' = { s with paused := b } ∧ evs = [Event.Paused b] := by
  unfold setPaused at h
  split at h
  next hauth =>
    simp only [Except.ok.injEq, Prod.mk.injEq] at h
    exact ⟨hauth, h.1.symm, h.2.symm⟩
  · exact Except.noConfusion h

/-- What a successful `setGuardian` call means: the caller is the
owner, the new guardian is non-zero, and only `guardian` changed. -/
lemma setGuardian_ok {s : VaultState} {sender g : Nat}
    {s' : VaultState} {evs : List Event}
    (h : setGuardian s sender g = Except.ok (s', evs)) :
    sender = s.owner ∧ g ≠ 0 ∧
      s' = { s with guardian := g } ∧ evs = [Event.GuardianUpdated g] := by
  unfold setGuardian at h
  split at h
  next hown =>
    split at h
    · exact Except.noConfusion h
    next hg =>
      simp only [Except.ok.injEq, Prod.mk.injEq] at h
      exact ⟨hown, hg, h.1.symm, h.2.symm⟩
  · exact Except.noConfusion h

/-- What a successful `setOwner` call means: the caller is the owner,
the new owner is non-zero, and only `owner` changed. -/
lemma setOwner_ok {s : VaultState} {sender o : Nat}
    {s' : VaultState} {evs : List Event}
    (h : setOwner s sender o = Except.ok (s', evs)) :
    sender = s.owner ∧ o ≠ 0 ∧
      s' = { s with owner := o } ∧ evs = [Event.OwnerUpdated o] := by
  unfold setOwner at h
  split at h
  next hown =>
    split at h
    · exact Except.noConfusion h
    next ho =>
      simp only [Except.ok.injEq, Prod.mk.injEq] at h
      exact ⟨hown, ho, h.1.symm, h.2.symm⟩
  · exact Except.noConfusion h

/-- Bookkeeping invariant: some finite set carries every non-zero
balance, and `totalAssets` is the sum of the balances over it. -/
def SumInv (s : VaultState) : Prop :=
  ∃ S : Finset Nat, (∀ a, a ∉ S → s.balances a = 0) ∧
    s.totalAssets = ∑ a ∈ S, s.balances a

/-- A successful `deposit` preserves the bookkeeping invariant. -/
lemma deposit_sumInv {s : VaultState} {sender value : Nat}
    {s' : VaultState} {evs : List Event}
    (h : deposit s sender value = Except.ok (s', evs)) (hinv : SumInv s) :
    SumInv s' := by
  obtain ⟨-, -, hs', -⟩ := deposit_ok h
  obtain ⟨S, hz, hsum⟩ := hinv
  subst hs'
  refine ⟨insert sender S, ?_, ?_⟩
  · intro a ha
    have has : a ∉ S := fun hmem => ha (Finset.mem_insert_of_mem hmem)
    have hne : a ≠ sender := fun he => ha (he ▸ Finset.mem_insert_self sender S)
    show Function.update s.balances sender (s.balances sender + value) a = 0
    rw [Function.update_noteq hne]
    exact hz a has
  · show s.totalAssets + value =
      ∑ a ∈ insert sender S, Function.update s.balances sender (s.balances sender + value) a
    have hmemT : sender ∈ insert sender S := Finset.mem_insert_self _ _
    have h1 := Finset.sum_update_of_mem hmemT s.balances (s.balances sender + value)
    have h2 := Finset.sum_eq_add_sum_diff_singleton hmemT s.balances
    have h3 : ∑ a ∈ insert sender S, s.balances a = ∑ a ∈ S, s.balances a := by
      by_cases hmem : sender ∈ S
      · rw [Finset.insert_eq_self.mpr hmem]
      · rw [Finset.sum_insert hmem, hz sender hmem, zero_add]
    omega

/-- A successful `withdraw` preserves the bookkeeping invariant. -/
lemma withdraw_sumInv {s : VaultState} {sender amount : Nat} {tOk : Bool}
    {s' : VaultState} {evs : List Event}
    (h : withdraw s sender amount tOk = Except.ok (s', evs)) (hinv : SumInv s) :
    SumInv s' := by
  obtain ⟨-, -, hle, -, hs', -⟩ := withdraw_ok h
  obtain ⟨S, hz, hsum⟩ := hinv
  subst hs'
  refine ⟨insert sender S, ?_, ?_⟩
  · intro a ha
    have has : a ∉ S := fun hmem => ha (Finset.mem_insert_of_mem hmem)
    have hne : a ≠ sender := fun he => ha (he ▸ Finset.mem_insert_self sender S)
    show Function.update s.balances sender (s.balances sender - amount) a = 0
    rw [Function.update_noteq hne]
    exact hz a has
  · show s.totalAssets - amount =
      ∑ a ∈ insert sender S, Function.update s.balances sender (s.balances sender - amount) a
    have hmemT : sender ∈ insert sender S := Finset.mem_insert_self _ _
    have h1 := Finset.sum_update_of_mem hmemT s.balances (s.balances sender - amount)
    have h2 := Finset.sum_eq_add_sum_diff_singleton hmemT s.balances
    have h3 : ∑ a ∈ insert sender S, s.balances a = ∑ a ∈ S, s.balances a := by
      by_cases hmem : sender ∈ S
      · rw [Finset.insert_eq_self.mpr hmem]
      · rw [Finset.sum_insert hmem, hz sender hmem, zero_add]
    omega

/-- Every successful call preserves the bookkeeping invariant. -/
lemma exec_sumInv {s : VaultState} {c : Call} {s' : VaultState}
    {evs : List Event} (h : exec s c = Except.ok (s', evs)) (hinv : SumInv s) :
    SumInv s' := by
  cases c with
  | depositC sender value => exact deposit_sumInv h hinv
  | withdrawC sender amount tOk => exact withdraw_sumInv h hinv
  | receiveC sender value => exact deposit_sumInv h hinv
  | setPausedC sender b =>
    obtain ⟨-, hs', -⟩ := setPaused_ok h
    subst hs'
    exact hinv
  | setGuardianC sender g =>
    obtain ⟨-, -, hs', -⟩ := setGuardian_ok h
    subst hs'
    exact hinv
  | setOwnerC sender o =>
    obtain ⟨-, -, hs', -⟩ := setOwner_ok h
    subst hs'
    exact hinv

/-- Every reachable state satisfies the bookkeeping invariant. -/
lemma reachable_sumInv {s : VaultState} (h : Reachable s) : SumInv s := by
  induction h with
  | init deployer g => exact ⟨∅, fun a _ => rfl, by simp [initState]⟩
  | step hs hex ih => exact exec_sumInv hex ih

/-- On every reachable state, each single balance is at most
`totalAssets`. -/
lemma reachable_balance_le {s : VaultState} (h : Reachable s) (a : Nat) :
    s.balances a ≤ s.totalAssets := by
  obtain ⟨S, hz, hsum⟩ := reachable_sumInv h
  by_cases ha : a ∈ S
  · rw [hsum]
    exact Finset.single_le_sum (fun i _ => Nat.zero_le _) ha
  · rw [hz a ha]
    exact Nat.zero_le _

/-- A concrete reachable state: deposit 5 from address 1 into the
freshly constructed vault (owner 0, guardian 7). -/
def vaultS1 : VaultState :=
  { owner := 0
    guardian := 7
    paused := false
    balances := Function.update (fun _ => 0) 1 5
    totalAssets := 5 }

lemma vaultS1_reachable : Reachable vaultS1 :=
  Reachable.step (Reachable.init 0 7)
    (show exec (initState 0 7) (Call.depositC 1 5) =
        Except.ok (vaultS1, [Event.Deposit 1 5]) from rfl)

/-- `deposit` succeeds exactly when the vault is unpaused and the
value is non-zero. -/
lemma deposit_callOk_iff (s : VaultState) (a v : Nat) :
    callOk (deposit s a v) = true ↔ (s.paused = false ∧ v ≠ 0) := by
  cases hps : s.paused
  · by_cases hv : v = 0
    · subst hv
      simp [deposit, callOk, hps]
    · simp [deposit, callOk, hps, hv]
  · simp [deposit, callOk, hps]

/-- `withdraw` succeeds exactly when the vault is unpaused, the
amount is non-zero and covered by the caller's balance, and the ETH
transfer went through. -/
lemma withdraw_callOk_iff (s : VaultState) (a m : Nat) (tOk : Bool) :
    callOk (withdraw s a m tOk) = true ↔
      (s.paused = false ∧ m ≠ 0 ∧ m ≤ s.balances a ∧ tOk = true) := by
  cases hps : s.paused
  · by_cases hm : m = 0
    · subst hm
      simp [withdraw, callOk, hps]
    · by_cases hb : s.balances a < m
      · simp [withdraw, callOk, hps, hm, hb]
      · cases tOk
        · simp [withdraw, callOk, hps, hm, hb]
        · simp [withdraw, callOk, hps, hm, hb]
          omega
  · simp [withdraw, callOk, hps]

/-- C1: on every reachable unpaused vault state, a deposit of `v > 0`
by `a` succeeds, credits exactly `v` to `balances[a]` and to
`totalAssets`, and leaves every other balance unchanged; and a
withdrawal of `0 < m ≤ balances[a]` by `a` (with the ETH transfer
succeeding) debits exactly `m` from `balances[a]` and from
`totalAssets`, leaving every other balance unchanged. -/
theorem vault_deposit_withdraw_exact (s : VaultState) (a v m : Nat)
    (hr : Reachable s) (hp : s.paused = false) :
    (0 < v → ∃ s' evs, deposit s a v = Except.ok (s', evs) ∧
      s'.balances a = s.balances a + v ∧
      s'.totalAssets = s.totalAssets + v ∧
      ∀ b, b ≠ a → s'.balances b = s.balances b) ∧
    (0 < m → m ≤ s.balances a →
      ∃ s' evs, withdraw s a m true = Except.ok (s', evs) ∧
      s'.balances a + m = s.balances a ∧
      s'.totalAssets + m = s.totalAssets ∧
      ∀ b, b ≠ a → s'.balances b = s.balances b) := by
  constructor
  · intro hv
    have hdep : deposit s a v = Except.ok
        ({ s with
            balances := Function.update s.balances a (s.balances a + v)
            totalAssets := s.totalAssets + v }, [Event.Deposit a v]) := by
      unfold deposit
      rw [hp]
      simp [Nat.pos_iff_ne_zero.mp hv]
    refine ⟨_, _, hdep, ?_, rfl, ?_⟩
    · show Function.update s.balances a (s.balances a + v) a = s.balances a + v
      rw [Function.update_same]
    · intro b hb
      show Function.update s.balances a (s.balances a + v) b = s.balances b
      rw [Function.update_noteq hb]
  · intro hm hle
    have hnotlt : ¬ (s.balances a < m) := Nat.not_lt.mpr hle
    have hwd : withdraw s a m true = Except.ok
        ({ s with
            balances := Function.update s.balances a (s.balances a - m)
            totalAssets := s.totalAssets - m }, [Event.Withdraw a m]) := by
      unfold withdraw
      rw [hp]
      simp [Nat.pos_iff_ne_zero.mp hm, hnotlt]
    have hmt : m ≤ s.totalAssets := le_trans hle (reachable_balance_le hr a)
    refine ⟨_, _, hwd, ?_, ?_, ?_⟩
    · show Function.update s.balances a (s.balances a - m) a + m = s.balances a
      rw [Function.update_same]
      omega
    · show s.totalAssets - m + m = s.totalAssets
      omega
    · intro b hb
      show Function.update s.balances a (s.balances a - m) b = s.balances b
      rw [Function.update_noteq hb]

theorem vault_deposit_withdraw_exact_witness :
    (∃ s' evs, deposit vaultS1 1 3 = Except.ok (s', evs) ∧
      s'.balances 1 = vaultS1.balances 1 + 3 ∧
      s'.totalAssets = vaultS1.totalAssets + 3 ∧
      ∀ b, b ≠ 1 → s'.balances b = vaultS1.balances b) ∧
    (∃ s' evs, withdraw vaultS1 1 2 true = Except.ok (s', evs) ∧
      s'.balances 1 + 2 = vaultS1.balances 1 ∧
      s'.totalAssets + 2 = vaultS1.totalAssets ∧
      ∀ b, b ≠ 1 → s'.balances b = vaultS1.balances b) := by
  have h := vault_deposit_withdraw_exact vaultS1 1 3 2 vaultS1_reachable rfl
  exact ⟨h.1 (by decide), h.2 (by decide) (by decide)⟩

/-- C2: whenever `paused` is true, `deposit` and `withdraw` both
revert with `VAULT_PAUSED` (a revert leaves the state unchanged);
whenever `paused` is false, success of either operation is decided by
the pause-independent conditions alone. -/
theorem pause_gate (s : VaultState) (a v m : Nat) (tOk : Bool) :
    (s.paused = true →
      deposit s a v = Except.error "VAULT_PAUSED" ∧
      withdraw s a m tOk = Except.error "VAULT_PAUSED") ∧
    (s.paused = false →
      ((callOk (deposit s a v) = true ↔ 0 < v) ∧
       (callOk (withdraw s a m tOk) = true ↔
         (0 < m ∧ m ≤ s.balances a ∧ tOk = true)))) := by
  constructor
  · intro hp
    exact ⟨by simp [deposit, hp], by simp [withdraw, hp]⟩
  · intro hp
    constructor
    · rw [deposit_callOk_iff]
      simp [hp, Nat.pos_iff_ne_zero]
    · rw [withdraw_callOk_iff]
      simp [hp, Nat.pos_iff_ne_zero]

theorem pause_gate_witness :
    deposit { initState 0 7 with paused := true } 1 5 =
      Except.error "VAULT_PAUSED" ∧
    (callOk (deposit (initState 0 7) 1 5) = true ↔ 0 < 5) :=
  ⟨((pause_gate { initState 0 7 with paused := true } 1 5 5 true).1 rfl).1,
    ((pause_gate (initState 0 7) 1 5 5 true).2 rfl).1⟩

/-- C3 counterexample: with a zero amount, `withdraw` reverts with
`ZERO_WITHDRAW` even though the caller's balance is not insufficient
(`balances[sender] < 0` is false) and the ETH transfer does not fail,
so insufficient balance and transfer failure are not the only revert
conditions. -/
theorem error_taxonomy_cex :
    withdraw (initState 0 7) 1 0 true = Except.error "ZERO_WITHDRAW" ∧
    ¬ ((initState 0 7).balances 1 < 0 ∨ (true : Bool) = false) :=
  ⟨rfl, by decide⟩

/-- C3 amended: `withdraw` reverts exactly when the vault is paused,
the amount is zero, the caller's balance is insufficient, or the ETH
transfer fails; `deposit` reverts exactly when the vault is paused or
the deposited value is zero. -/
theorem error_taxonomy_amended (s : VaultState) (a m v : Nat) (tOk : Bool) :
    (callOk (withdraw s a m tOk) = false ↔
      (s.paused = true ∨ m = 0 ∨ s.balances a < m ∨ tOk = false)) ∧
    (callOk (deposit s a v) = false ↔ (s.paused = true ∨ v = 0)) := by
  constructor
  · cases hps : s.paused
    · by_cases hm : m = 0
      · subst hm
        simp [withdraw, callOk, hps]
      · by_cases hb : s.balances a < m
        · simp [withdraw, callOk, hps, hm, hb]
        · cases tOk
          · simp [withdraw, callOk, hps, hm, hb]
          · simp [withdraw, callOk, hps, hm, hb]
    · simp [withdraw, callOk, hps]
  · cases hps : s.paused
    · by_cases hv : v = 0
      · subst hv
        simp [deposit, callOk, hps]
      · simp [deposit, callOk, hps, hv]
    · simp [deposit, callOk, hps]

/-- C4: `setPaused(b)` succeeds, setting `paused` to `b` and emitting
`Paused(b)`, exactly when the caller is the owner or the guardian;
every other caller reverts with `NOT_AUTHORIZED` (leaving the state
unchanged). -/
theorem setPaused_auth (s : VaultState) (c : Nat) (b : Bool) :
    (c = s.owner ∨ c = s.guardian →
      setPaused s c b = Except.ok ({ s with paused := b }, [Event.Paused b])) ∧
    (¬ (c = s.owner ∨ c = s.guardian) →
      setPaused s c b = Except.error "NOT_AUTHORIZED") := by
  constructor
  · intro h
    unfold setPaused
    rw [if_pos h]
  · intro h
    unfold setPaused
    rw [if_neg h]

theorem setPaused_auth_witness :
    setPaused (initState 0 7) 7 true =
      Except.ok ({ initState 0 7 with paused := true }, [Event.Paused true]) ∧
    setPaused (initState 0 7) 3 true = Except.error "NOT_AUTHORIZED" :=
  ⟨(setPaused_auth (initState 0 7) 7 true).1 (Or.inr rfl),
    (setPaused_auth (initState 0 7) 3 true).2 (by decide)⟩

/-- C5: for a connected, configured user with `0 < shares` and a
slider value `pct ∈ [1, 100]`, `onWithdraw` issues exactly
`redeem(shares * pct / 100, account, account)`, and that quantity
never exceeds the share balance; with `undefined` or zero shares no
contract call is made. -/
theorem onWithdraw_redeem (a sh pct : Nat) (hsh : 0 < sh)
    (hp1 : 1 ≤ pct) (hp2 : pct ≤ 100) :
    onWithdrawActions true true true a (some sh) pct =
      [FlowStep.redeemTx (sh * pct / 100) a a] ∧
    sh * pct / 100 ≤ sh ∧
    (∀ hw c hc pct', onWithdrawActions hw c hc a none pct' = [] ∧
      onWithdrawActions hw c hc a (some 0) pct' = []) := by
  refine ⟨?_, ?_, ?_⟩
  · simp [onWithdrawActions, Nat.pos_iff_ne_zero.mp hsh]
  · calc sh * pct / 100 ≤ sh * 100 / 100 :=
          Nat.div_le_div_right (Nat.mul_le_mul_left sh hp2)
      _ = sh := Nat.mul_div_cancel sh (by norm_num)
  · intro hw c hc pct'
    constructor
    · cases hw <;> cases c <;> cases hc <;> simp [onWithdrawActions]
    · cases hw <;> cases c <;> cases hc <;> simp [onWithdrawActions]

theorem onWithdraw_redeem_witness :
    onWithdrawActions true true true 2 (some 8) 25 =
      [FlowStep.redeemTx 2 2 2] ∧
    8 * 25 / 100 ≤ 8 := by
  have h := onWithdraw_redeem 2 8 25 (by decide) (by decide) (by decide)
  exact ⟨by rw [h.1], h.2.1⟩

/-- C6: when connected and configured, `onDeposit` reads the
allowance, issues `approve(vault, assets)` exactly when the allowance
is strictly below the parsed amount, and then issues
`deposit(assets, account)`; with any guard false it issues no call at
all. -/
theorem onDeposit_flow (account vaultAddr allowance assets : Nat) :
    (allowance < assets →
      onDepositActions true true true account vaultAddr allowance assets =
        [FlowStep.allowanceRead account vaultAddr,
         FlowStep.approveTx vaultAddr assets,
         FlowStep.depositTx assets account]) ∧
    (assets ≤ allowance →
      onDepositActions true true true account vaultAddr allowance assets =
        [FlowStep.allowanceRead account vaultAddr,
         FlowStep.depositTx assets account]) ∧
    (∀ hw c hc : Bool, (hw && c && hc) = false →
      onDepositActions hw c hc account vaultAddr allowance assets = []) := by
  refine ⟨?_, ?_, ?_⟩
  · intro h
    simp [onDepositActions, h]
  · intro h
    simp [onDepositActions, Nat.not_lt.mpr h]
  · intro hw c hc hfalse
    have hcond : (!hw || !c || !hc) = true := by
      cases hw <;> cases c <;> cases hc <;> simp_all
    unfold onDepositActions
    rw [if_pos hcond]

theorem onDeposit_flow_witness :
    onDepositActions true true true 2 9 50 100 =
      [FlowStep.allowanceRead 2 9, FlowStep.approveTx 9 100,
       FlowStep.depositTx 100 2] ∧
    onDepositActions true true true 2 9 100 100 =
      [FlowStep.allowanceRead 2 9, FlowStep.depositTx 100 2] :=
  ⟨(onDeposit_flow 2 9 50 100).1 (by decide),
    (onDeposit_flow 2 9 100 100).2.1 (by decide)⟩

/-- C7: the admin operations `setPaused`, `setGuardian` and
`setOwner` never touch the `balances` mapping or `totalAssets` (on
revert no state changes at all), and `receive` is exactly a
delegation to `deposit`, so only `deposit`/`withdraw` mutate the
ledger. -/
theorem admin_ops_frame (s : VaultState) (c : Nat) (b : Bool) (g o v : Nat)
    (s1 s2 s3 : VaultState) (e1 e2 e3 : List Event) :
    (setPaused s c b = Except.ok (s1, e1) →
      s1.balances = s.balances ∧ s1.totalAssets = s.totalAssets) ∧
    (setGuardian s c g = Except.ok (s2, e2) →
      s2.balances = s.balances ∧ s2.totalAssets = s.totalAssets) ∧
    (setOwner s c o = Except.ok (s3, e3) →
      s3.balances = s.balances ∧ s3.totalAssets = s.totalAssets) ∧
    receiveEth s c v = deposit s c v := by
  refine ⟨?_, ?_, ?_, rfl⟩
  · intro h
    obtain ⟨-, hs', -⟩ := setPaused_ok h
    subst hs'
    exact ⟨rfl, rfl⟩
  · intro h
    obtain ⟨-, -, hs', -⟩ := setGuardian_ok h
    subst hs'
    exact ⟨rfl, rfl⟩
  · intro h
    obtain ⟨-, -, hs', -⟩ := setOwner_ok h
    subst hs'
    exact ⟨rfl, rfl⟩

theorem admin_ops_frame_witness :
    ({ initState 0 7 with paused := true } : VaultState).balances =
      (initState 0 7).balances ∧
    ({ initState 0 7 with guardian := 9 } : VaultState).balances =
      (initState 0 7).balances ∧
    ({ initState 0 7 with owner := 9 } : VaultState).totalAssets =
      (initState 0 7).totalAssets := by
  have h := admin_ops_frame (initState 0 7) 0 true 9 9 1
    { initState 0 7 with paused := true } { initState 0 7 with guardian := 9 }
    { initState 0 7 with owner := 9 } [Event.Paused true]
    [Event.GuardianUpdated 9] [Event.OwnerUpdated 9]
  exact ⟨(h.1 rfl).1, (h.2.1 rfl).1, (h.2.2.1 rfl).2⟩

/-- C8: on every state reachable from the constructor by successful
calls, `totalAssets` equals the sum of the balances over any finite
set of addresses outside of which all balances are zero (such a set
always exists, by `reachable_sumInv`). -/
theorem totalAssets_eq_sum_balances (s : VaultState) (hr : Reachable s)
    (S : Finset Nat) (hS : ∀ a, a ∉ S → s.balances a = 0) :
    s.totalAssets = ∑ a ∈ S, s.balances a := by
  obtain ⟨T, hT, hsum⟩ := reachable_sumInv hr
  have h1 : ∑ a ∈ T, s.balances a = ∑ a ∈ T ∪ S, s.balances a :=
    Finset.sum_subset Finset.subset_union_left (fun x _ hx => hT x hx)
  have h2 : ∑ a ∈ S, s.balances a = ∑ a ∈ T ∪ S, s.balances a :=
    Finset.sum_subset Finset.subset_union_right (fun x _ hx => hS x hx)
  rw [hsum, h1, h2]

theorem totalAssets_eq_sum_balances_witness :
    vaultS1.totalAssets = ∑ a ∈ ({1} : Finset Nat), vaultS1.balances a :=
  totalAssets_eq_sum_balances vaultS1 vaultS1_reachable {1}
    (fun a ha => by
      show Function.update (fun _ => 0) 1 5 a = 0
      rw [Function.update_noteq (Finset.not_mem_singleton.mp ha)])

/-- C9: in both contracts, sending plain ETH (the `receive` function)
is exactly a call to `deposit` with the same sender and value: the
same state update, the same `Deposit` event, and the same revert
conditions. -/
theorem receive_eq_deposit :
    (∀ (s : VaultState) (sender value : Nat),
      receiveEth s sender value = deposit s sender value) ∧
    (∀ (t : MvpState) (sender value : Nat),
      mvpReceive t sender value = mvpDeposit t sender value) :=
  ⟨fun _ _ _ => rfl, fun _ _ _ => rfl⟩

/-- `firstNonEmptyString` returns `none` exactly when no candidate
passes the non-empty-string filter. -/
lemma firstNonEmptyString_eq_none_iff (l : List (Option String)) :
    firstNonEmptyString l = none ↔ ∀ v ∈ l, keepNonEmpty v = none := by
  induction l with
  | nil => simp [firstNonEmptyString]
  | cons v rest ih =>
    cases hk : keepNonEmpty v with
    | none => simp [firstNonEmptyString, hk, ih]
    | some str => simp [firstNonEmptyString, hk]

/-- C10: `readPublicEnv(key)` returns the first non-empty string
among `process.env[key]`, `__ENV__[key]`, `__NEXT_PUBLIC__[key]` and
`globalThis[key]`, in that order, and returns `undefined` exactly
when none of them is a non-empty string. -/
theorem readPublicEnv_first_nonempty (g : JsEnv) (key : String) :
    readPublicEnv g key = firstNonEmptyString (envCandidates g key) ∧
    (readPublicEnv g key = none ↔
      ∀ v ∈ envCandidates g key, keepNonEmpty v = none) := by
  have hmain : readPublicEnv g key = firstNonEmptyString (envCandidates g key) := by
    cases h1 : keepNonEmpty (g.procEnv.bind fun e => e key) with
    | some v1 => simp [readPublicEnv, firstNonEmptyString, envCandidates, h1]
    | none =>
      cases h2 : keepNonEmpty (g.envObj.bind fun e => e key) with
      | some v2 => simp [readPublicEnv, firstNonEmptyString, envCandidates, h1, h2]
      | none =>
        cases h3 : keepNonEmpty (g.nextPublicObj.bind fun e => e key) with
        | some v3 =>
          simp [readPublicEnv, firstNonEmptyString, envCandidates, h1, h2, h3]
        | none =>
          cases h4 : keepNonEmpty (g.globalDirect key) with
          | some v4 =>
            simp [readPublicEnv, firstNonEmptyString, envCandidates, h1, h2, h3, h4]
          | none =>
            simp [readPublicEnv, firstNonEmptyString, envCandidates, h1, h2, h3, h4]
  refine ⟨hmain, ?_⟩
  rw [hmain]
  exact firstNonEmptyString_eq_none_iff (envCandidates g key)
